import Mathlib

/-!
# Projectile motion (`assignment.c`): kinematics, event handlers and marker curves

The C program keeps its whole state in file-scope variables (`projectile`,
`global`, `segments`) and in the function-local static `lastT` of `update`.
They are gathered in the record `World`, and every C function that touches
them becomes a function from `World` to `World`.

`float` values are modelled in exact arithmetic: the definitions are written
over an arbitrary linearly ordered field `α` (they run on `ℚ`), and the
`<math.h>` functions `sin`, `cos`, `tan`, `sqrt` and the constant `M_PI` are
parameters, instantiated with the real functions in the theorems.  `int`
values are integers wrapped to 32 bits in two's complement.  OpenGL calls are
rendered by the list of vertices handed to `glVertex3f`; `printf`, `glColor3f`
and `glutPostRedisplay` leave the program variables untouched and are omitted.
-/

namespace Projectile

/-! ## Data model -/

/-- The type `typedef struct { float x, y; } vec2f;`. -/
structure vec2f (α : Type) where
  x : α
  y : α

/-- The type `typedef struct { vec2f r0, v0, r, v; } state;`. -/
structure state (α : Type) where
  r0 : vec2f α
  v0 : vec2f α
  r : vec2f α
  v : vec2f α

/-- The type `typedef enum { analytical, numerical } integrationMode;`. -/
inductive integrationMode where
  | analytical
  | numerical
deriving DecidableEq

/-- The type `global_t`. -/
structure global_t (α : Type) where
  cartesianFlag : Bool
  debug : Bool
  go : Bool
  startTime : α
  integrateMode : integrationMode
  OSD : Bool
  frames : Int
  frameRate : α
  frameRateInterval : α
  lastFrameRateT : α

/-- All mutable variables of the program: the file-scope `projectile`,
`global` and `segments`, and the static local `lastT` of `update`. -/
structure World (α : Type) where
  projectile : state α
  global : global_t α
  segments : Int
  lastT : α

/-- A vertex handed to `glVertex3f`. -/
structure Vertex (α : Type) where
  x : α
  y : α
  z : α

section Defs

variable {α : Type} [LinearOrderedField α]

/-- The constant `const float g = -9.8;`. -/
def g : α := -(98 / 10)

/-- The constant `const int milli = 1000;`. -/
def milli : Int := 1000

/-- The initialisers of `projectile`, `global`, `segments` and `lastT`. -/
def initialWorld : World α :=
  { projectile := { r0 := ⟨0, 0⟩, v0 := ⟨1, 2⟩, r := ⟨0, 0⟩, v := ⟨1, 2⟩ }
    global :=
      { cartesianFlag := true, debug := true, go := false, startTime := 0,
        integrateMode := integrationMode.numerical, OSD := true, frames := 0,
        frameRate := 0, frameRateInterval := 2 / 10, lastFrameRateT := 0 }
    segments := 8
    lastT := -1 }

/-- Two's complement wrap of an integer to the range of a 32-bit `int`. -/
def wrap32 (n : Int) : Int := (n + 2147483648) % 4294967296 - 2147483648

/-! ## Integrator -/

/-- The function `updateProjectileStateAnalytical(float t)`. -/
def updateProjectileStateAnalytical (w : World α) (t : α) : World α :=
  let r0 := w.projectile.r0
  let v0 := w.projectile.v0
  let rx := v0.x * t + r0.x
  let ry := 1 / 2 * g * t * t + v0.y * t + r0.y
  { w with projectile := { w.projectile with r := ⟨rx, ry⟩ } }

/-- The function `updateProjectileStateNumerical(float dt)`: one explicit Euler
step, with the ground test between the position and the velocity update. -/
def updateProjectileStateNumerical (w : World α) (dt : α) : World α :=
  let rx := w.projectile.r.x + w.projectile.v.x * dt
  let ry := w.projectile.r.y + w.projectile.v.y * dt
  let ry1 := if ry < 0 then 0 else ry
  let go1 := if ry < 0 then false else w.global.go
  let vy := w.projectile.v.y + g * dt
  { w with
    projectile := { w.projectile with r := ⟨rx, ry1⟩, v := ⟨w.projectile.v.x, vy⟩ }
    global := { w.global with go := go1 } }

/-- The function `updateProjectileState(float t, float dt)`. -/
def updateProjectileState (w : World α) (t dt : α) : World α :=
  if w.global.integrateMode = integrationMode.analytical then
    updateProjectileStateAnalytical w t
  else
    updateProjectileStateNumerical w dt

/-! ## Animation driver and input handlers -/

/-- The expression `glutGet(GLUT_ELAPSED_TIME) / (float)milli`, for the reading
`clock` (an `int` number of milliseconds) of the GLUT clock. -/
def elapsedSeconds (clock : Int) : α := (clock : α) / ((milli : Int) : α)

/-- The idle callback `update(void)`; `clock` is the value returned by
`glutGet(GLUT_ELAPSED_TIME)`. -/
def update (w : World α) (clock : Int) : World α :=
  if !w.global.go then w
  else
    let t : α := elapsedSeconds clock - w.global.startTime
    if w.lastT < 0 then { w with lastT := t }
    else
      let dt := t - w.lastT
      let w1 := updateProjectileState w t dt
      let w2 := { w1 with lastT := t }
      let dt := t - w2.global.lastFrameRateT
      if dt > w2.global.frameRateInterval then
        { w2 with
          global := { w2.global with
            frameRate := (w2.global.frames : α) / dt, lastFrameRateT := t, frames := 0 } }
      else w2

/-- The effect of `display(void)` on the program variables: `global.frames++`. -/
def display (w : World α) : World α :=
  { w with global := { w.global with frames := wrap32 (w.global.frames + 1) } }

/-- The value of `GLUT_KEY_UP` in `<GL/glut.h>`. -/
def GLUT_KEY_UP : Int := 101

/-- The value of `GLUT_KEY_DOWN` in `<GL/glut.h>`. -/
def GLUT_KEY_DOWN : Int := 103

/-- The function `keyboardSpecial(int key, int x, int y)`; the mouse
coordinates are not used. -/
def keyboardSpecial (w : World α) (key : Int) : World α :=
  if key = GLUT_KEY_UP then
    { w with segments := wrap32 (2 * w.segments) }
  else if key = GLUT_KEY_DOWN then
    if w.segments > 4 then { w with segments := Int.tdiv w.segments 2 } else w
  else w

/-- The function `keyboardCB(unsigned char key, int x, int y)`; `clock` is the
value returned by `glutGet(GLUT_ELAPSED_TIME)`.  The result is `none` when the
handler calls `exit`. -/
def keyboardCB (w : World α) (key : Char) (clock : Int) : Option (World α) :=
  if key = Char.ofNat 27 ∨ key = 'q' then none
  else if key = 'd' then
    some { w with global := { w.global with debug := !w.global.debug } }
  else if key = 'i' then
    if w.global.integrateMode = integrationMode.analytical then
      some { w with global := { w.global with integrateMode := integrationMode.numerical } }
    else
      some { w with global := { w.global with integrateMode := integrationMode.analytical } }
  else if key = 'o' then
    some { w with global := { w.global with OSD := !w.global.OSD } }
  else if key = 'f' then
    some { w with global := { w.global with cartesianFlag := !w.global.cartesianFlag } }
  else if key = ' ' then
    if !w.global.go then
      some { w with global := { w.global with startTime := elapsedSeconds clock, go := true } }
    else some w
  else some w

/-- The callbacks registered in `main`, with the data each one receives. -/
inductive Event where
  | idle (clock : Int)
  | keyboard (key : Char) (clock : Int)
  | special (key : Int)
  | redisplay

/-- The launch/restart signal: the space key. -/
def Event.isRestart : Event → Bool
  | Event.keyboard key _ => key = ' '
  | _ => false

/-- The main loop `glutMainLoop()` dispatching a finite sequence of events; the
loop ends, with the variables as they are, when a handler calls `exit`. -/
def run (w : World α) : List Event → World α
  | [] => w
  | Event.idle clock :: es => run (update w clock) es
  | Event.keyboard key clock :: es =>
    match keyboardCB w key clock with
    | none => w
    | some w1 => run w1 es
  | Event.special key :: es => run (keyboardSpecial w key) es
  | Event.redisplay :: es => run (display w) es

/-- No doubling overflows along a sequence of special keys: every
`GLUT_KEY_UP` is handled with `2 * segments` within the range of `int`. -/
def doublingFits (w : World α) : List Int → Prop
  | [] => True
  | key :: keys =>
    (key = GLUT_KEY_UP → 2 * w.segments ≤ 2147483647) ∧ doublingFits (keyboardSpecial w key) keys

/-- The numerical step called `n` times with the same `dt`. -/
def numericalSteps (w : World α) (dt : α) : Nat → World α
  | 0 => w
  | n + 1 => updateProjectileStateNumerical (numericalSteps w dt n) dt

/-! ## Curve generator -/

set_option linter.unusedVariables false in
/-- The body of the loop of `drawCartesianCircle` for the index `i`: the state
is the running `y` and the vertices emitted so far.  Both assignments to `x`
of each branch are kept; the first one is overwritten before it is used. -/
def cartesianCircleBody (sqrt : α → α) (a b r : α) (segments : Int)
    (st : α × List (Vertex α)) (i : Nat) : α × List (Vertex α) :=
  let y := st.1
  if (i : Int) < Int.tdiv segments 2 then
    let x := a + sqrt ((2 * b * y) - (b * b) + (r * r) - (y * y))
    let x := a + sqrt (r ^ 2 - (y - b) ^ 2)
    (y - (r / ((segments : α) / 4)), st.2 ++ [⟨x, y, 0⟩])
  else if wrap32 (2 * (i : Int) + 1) = segments then
    let x := a + sqrt ((2 * b * y) - (b * b) + (r * r) - (y * y))
    let x := a + sqrt (r ^ 2 - (y - b) ^ 2)
    (y, st.2 ++ [⟨x, y, 0⟩])
  else
    let x := a - sqrt ((2 * b * y) - (b * b) + (r * r) - (y * y))
    let x := a - sqrt (r ^ 2 - (y - b) ^ 2)
    (y + (r / ((segments : α) / 4)), st.2 ++ [⟨x, y, 0⟩])

/-- The function `drawCartesianCircle(float a, float b, int segments)`, as the
list of vertices it emits: `float r = 0.1; float y = r, x;` followed by the
loop `for (int i = 0; i <= segments; i++)`. -/
def drawCartesianCircle (sqrt : α → α) (a b : α) (segments : Int) : List (Vertex α) :=
  let r : α := 1 / 10
  ((List.range (segments + 1).toNat).foldl (cartesianCircleBody sqrt a b r segments) (r, [])).2

/-- The argument of the square root that yields the emitted `x` in
`drawCartesianCircle`, `pow(r,2) - pow(y-b,2)` with `r = 0.1`, for a vertex
emitted at height `y`. -/
def circleRadicand (b y : α) : α := (1 / 10) ^ 2 - (y - b) ^ 2

/-- The function `drawParametricCircle(float x, float y, int segments)`, as the
list of vertices it emits in the loop `for (int i = 0; i <= segments; i++)`. -/
def drawParametricCircle (cos sin : α → α) (pi : α) (x y : α) (segments : Int) :
    List (Vertex α) :=
  let r : α := 1 / 10
  (List.range (segments + 1).toNat).map fun (i : Nat) =>
    let angle := (i : α) / (segments : α) * 2 * pi
    ⟨x + r * cos angle, y + r * sin angle, 0⟩

/-- The function `drawCircle(bool cartesianFlag)`. -/
def drawCircle (sqrt cos sin : α → α) (pi : α) (w : World α) (cartesianFlag : Bool) :
    List (Vertex α) :=
  if cartesianFlag then
    drawCartesianCircle sqrt w.projectile.r.x w.projectile.r.y w.segments
  else
    drawParametricCircle cos sin pi w.projectile.r.x w.projectile.r.y w.segments

/-- The function `displayProjectile(void)`. -/
def displayProjectile (sqrt cos sin : α → α) (pi : α) (w : World α) : List (Vertex α) :=
  drawCircle sqrt cos sin pi w w.global.cartesianFlag

/-- A `float` division `p / q`: `none` stands for the non-finite result
(an infinity or a NaN) of a division by zero. -/
def floatDiv (p q : α) : Option α := if q = 0 then none else some (p / q)

/-- The divisor `2*pow(projectile.v.y,2)*cos(angle)*cos(angle)` of the height
equation in `drawCartesianParabola`. -/
def parabolaDivisor (cos : α → α) (angle : α) (w : World α) : α :=
  2 * w.projectile.v.y ^ 2 * cos angle * cos angle

/-- A vertex emitted by `drawCartesianParabola`: its `x`, and its `y`, which is
`none` when the division of the height equation is by zero. -/
structure ParabolaVertex (α : Type) where
  x : α
  y : Option α

/-- The body of the loop of `drawCartesianParabola`; it does not depend on the
loop index. -/
def cartesianParabolaBody (sin cos tan : α → α) (angle : α) (w : World α) :
    ParabolaVertex α :=
  let x := sin angle * sin angle * (w.projectile.v.y ^ 2) / g
  let y := (floatDiv g (parabolaDivisor cos angle w)).map fun q => tan angle * x - q * x ^ 2
  ⟨x, y⟩

/-- The function `drawCartesianParabola(int segments)`, as the list of the
vertices it emits.  The local `angle` is read without having been assigned and
is a parameter here.  The loop `for (int i = 0; i < projectile.v.y + 1; i++)`
runs its body for the indices `i = 0, 1, ...` below `projectile.v.y + 1`, that
is `⌈projectile.v.y + 1⌉₊` times. -/
def drawCartesianParabola [FloorRing α] (sin cos tan : α → α) (angle : α) (w : World α) :
    List (ParabolaVertex α) :=
  (List.range ⌈w.projectile.v.y + 1⌉₊).map fun _ => cartesianParabolaBody sin cos tan angle w

/-- A first flight flown to the ground in numerical mode: launch at clock `0`,
then idle callbacks at `0`, `500` and `1000` milliseconds. -/
def firstFlight : List Event :=
  [Event.keyboard ' ' 0, Event.idle 0, Event.idle 500, Event.idle 1000]

end Defs

section Theorems

variable {α : Type} [LinearOrderedField α]

/-- C1: the analytical step writes the closed-form kinematic position:
`position.x = initialVelocity.x * t + initialPosition.x` and
`position.y = 0.5 * g * t^2 + initialVelocity.y * t + initialPosition.y` with
`g = -9.8`, for every state and every `t`; at `t = 0` the position is the
initial position; from initial position `(0,0)` and initial velocity `(1,2)`
at `t = 0.2` the position is `(0.2, 0.204)`. -/
theorem analytical_closed_form (w : World α) (t : α) :
    (updateProjectileStateAnalytical w t).projectile.r.x
        = w.projectile.v0.x * t + w.projectile.r0.x
    ∧ (updateProjectileStateAnalytical w t).projectile.r.y
        = 1 / 2 * (-(98 / 10)) * t ^ 2 + w.projectile.v0.y * t + w.projectile.r0.y
    ∧ (updateProjectileStateAnalytical w 0).projectile.r.x = w.projectile.r0.x
    ∧ (updateProjectileStateAnalytical w 0).projectile.r.y = w.projectile.r0.y
    ∧ (updateProjectileStateAnalytical
          { w with projectile := { w.projectile with r0 := ⟨0, 0⟩, v0 := ⟨1, 2⟩ } }
          (2 / 10)).projectile.r.x = 2 / 10
    ∧ (updateProjectileStateAnalytical
          { w with projectile := { w.projectile with r0 := ⟨0, 0⟩, v0 := ⟨1, 2⟩ } }
          (2 / 10)).projectile.r.y = 204 / 1000 := by
  refine ⟨rfl, ?_, ?_, ?_, ?_, ?_⟩
  · simp only [updateProjectileStateAnalytical, g]; ring
  · simp [updateProjectileStateAnalytical]
  · simp [updateProjectileStateAnalytical]
  · simp [updateProjectileStateAnalytical]
  · simp only [updateProjectileStateAnalytical, g]; norm_num

/-- C2: the numerical step is the explicit Euler step with the ground clamp:
the new `position.x` is `r.x + v.x*dt`; the new `position.y` is `r.y + v.y*dt`,
computed with the velocity from before the gravity update, replaced by `0`
(with `go` set to `false`) exactly when that value is negative, `go` being left
as it was otherwise; the new `velocity.y` is `v.y + g*dt` and `velocity.x` is
unchanged.  From `r = (0,0)`, `v = (1,2)`, `dt = 0.1` the result is
`position = (0.1, 0.2)`, `velocity.y = 1.02`. -/
theorem numerical_step_euler (w : World α) (dt : α) :
    (updateProjectileStateNumerical w dt).projectile.r.x
        = w.projectile.r.x + w.projectile.v.x * dt
    ∧ (updateProjectileStateNumerical w dt).projectile.r.y
        = (if w.projectile.r.y + w.projectile.v.y * dt < 0 then 0
           else w.projectile.r.y + w.projectile.v.y * dt)
    ∧ (updateProjectileStateNumerical w dt).global.go
        = (if w.projectile.r.y + w.projectile.v.y * dt < 0 then false else w.global.go)
    ∧ (updateProjectileStateNumerical w dt).projectile.v.y
        = w.projectile.v.y + -(98 / 10) * dt
    ∧ (updateProjectileStateNumerical w dt).projectile.v.x = w.projectile.v.x
    ∧ (updateProjectileStateNumerical
          { w with projectile := { w.projectile with r := ⟨0, 0⟩, v := ⟨1, 2⟩ } }
          (1 / 10)).projectile.r.x = 1 / 10
    ∧ (updateProjectileStateNumerical
          { w with projectile := { w.projectile with r := ⟨0, 0⟩, v := ⟨1, 2⟩ } }
          (1 / 10)).projectile.r.y = 2 / 10
    ∧ (updateProjectileStateNumerical
          { w with projectile := { w.projectile with r := ⟨0, 0⟩, v := ⟨1, 2⟩ } }
          (1 / 10)).projectile.v.y = 102 / 100
    ∧ (updateProjectileStateNumerical
          { w with projectile := { w.projectile with r := ⟨0, 0⟩, v := ⟨1, 2⟩ } }
          (1 / 10)).global.go = w.global.go := by
  refine ⟨rfl, rfl, rfl, rfl, rfl, ?_, ?_, ?_, ?_⟩
  · simp [updateProjectileStateNumerical]
  · simp only [updateProjectileStateNumerical]; norm_num
  · simp only [updateProjectileStateNumerical, g]; norm_num
  · simp only [updateProjectileStateNumerical]; norm_num

/-! ### Grounded run state -/

/-- With `go` false the idle callback returns at its first test. -/
lemma update_of_not_go (w : World α) (clock : Int) (hgo : w.global.go = false) :
    update w clock = w := by
  simp [update, hgo]

/-- Every key but the space key leaves `projectile` and `go` as they are, when
the handler returns. -/
lemma keyboardCB_of_not_space (w w1 : World α) (key : Char) (clock : Int)
    (hkey : key ≠ ' ') (h : keyboardCB w key clock = some w1) :
    w1.projectile = w.projectile ∧ w1.global.go = w.global.go := by
  unfold keyboardCB at h
  simp only [hkey, if_false] at h
  split_ifs at h <;> cases h <;> exact ⟨rfl, rfl⟩

/-- While no restart is issued, a grounded run keeps the projectile where it
is and stays grounded. -/
lemma run_of_not_go (evs : List Event) :
    ∀ w : World α, w.global.go = false → (∀ e ∈ evs, e.isRestart = false) →
      (run w evs).projectile = w.projectile ∧ (run w evs).global.go = false := by
  induction evs with
  | nil => intro w hgo _; exact ⟨rfl, hgo⟩
  | cons e es ih =>
    intro w hgo hno
    have hes : ∀ e1 ∈ es, e1.isRestart = false := fun e1 he1 =>
      hno e1 (List.mem_cons_of_mem _ he1)
    have he : e.isRestart = false := hno e (List.mem_cons_self _ _)
    cases e with
    | idle clock =>
      simp only [run]
      rw [update_of_not_go w clock hgo]
      exact ih w hgo hes
    | keyboard key clock =>
      have hkey : key ≠ ' ' := by simpa [Event.isRestart] using he
      simp only [run]
      cases hk : keyboardCB w key clock with
      | none => exact ⟨rfl, hgo⟩
      | some w1 =>
        obtain ⟨hp, hg⟩ := keyboardCB_of_not_space w w1 key clock hkey hk
        have := ih w1 (hg.trans hgo) hes
        simp only
        rw [this.1, hp]
        exact ⟨rfl, this.2⟩
    | special key =>
      simp only [run]
      have hp : (keyboardSpecial w key).projectile = w.projectile := by
        unfold keyboardSpecial; split_ifs <;> rfl
      have hg : (keyboardSpecial w key).global.go = false := by
        unfold keyboardSpecial; split_ifs <;> exact hgo
      have := ih _ hg hes
      rw [this.1, hp]
      exact ⟨rfl, this.2⟩
    | redisplay =>
      simp only [run]
      have := ih (display w) hgo hes
      rw [this.1]
      exact ⟨rfl, this.2⟩

/-- C3: Grounded is terminal until restart.  When a numerical step clamps
`position.y` to `0` it sets `go` to `false`; after any later sequence of
events without the space key the position and velocity are those the clamping
step left, `go` is still `false`, and a further call of `update`, for any
clock value, changes nothing. -/
theorem grounded_until_restart (w : World α) (dt : α) (evs : List Event) (clock : Int)
    (hclamp : w.projectile.r.y + w.projectile.v.y * dt < 0)
    (hno : ∀ e ∈ evs, e.isRestart = false) :
    (updateProjectileStateNumerical w dt).projectile.r.y = 0
    ∧ (updateProjectileStateNumerical w dt).global.go = false
    ∧ (run (updateProjectileStateNumerical w dt) evs).projectile
        = (updateProjectileStateNumerical w dt).projectile
    ∧ (run (updateProjectileStateNumerical w dt) evs).global.go = false
    ∧ update (run (updateProjectileStateNumerical w dt) evs) clock
        = run (updateProjectileStateNumerical w dt) evs := by
  have hy : (updateProjectileStateNumerical w dt).projectile.r.y = 0 := by
    simp [updateProjectileStateNumerical, hclamp]
  have hgo : (updateProjectileStateNumerical w dt).global.go = false := by
    simp [updateProjectileStateNumerical, hclamp]
  have hrun := run_of_not_go evs (updateProjectileStateNumerical w dt) hgo hno
  exact ⟨hy, hgo, hrun.1, hrun.2, update_of_not_go _ clock hrun.2⟩

/-- C3, at a concrete input: the launch state with `velocity.y = -2` is clamped
by a step of `dt = 0.1`, and idle, key, special-key and display events follow. -/
theorem grounded_until_restart_witness :
    (updateProjectileStateNumerical
        ({ (initialWorld : World ℚ) with
          projectile := { r0 := ⟨0, 0⟩, v0 := ⟨1, 2⟩, r := ⟨0, 0⟩, v := ⟨1, -2⟩ } } : World ℚ)
        (1 / 10)).projectile.r.y = 0
    ∧ (run (updateProjectileStateNumerical
        ({ (initialWorld : World ℚ) with
          projectile := { r0 := ⟨0, 0⟩, v0 := ⟨1, 2⟩, r := ⟨0, 0⟩, v := ⟨1, -2⟩ } } : World ℚ)
        (1 / 10))
        [Event.idle 100, Event.keyboard 'i' 150, Event.special 101, Event.redisplay,
          Event.idle 200]).projectile
      = (updateProjectileStateNumerical
        ({ (initialWorld : World ℚ) with
          projectile := { r0 := ⟨0, 0⟩, v0 := ⟨1, 2⟩, r := ⟨0, 0⟩, v := ⟨1, -2⟩ } } : World ℚ)
        (1 / 10)).projectile :=
  have h := grounded_until_restart
    ({ (initialWorld : World ℚ) with
      projectile := { r0 := ⟨0, 0⟩, v0 := ⟨1, 2⟩, r := ⟨0, 0⟩, v := ⟨1, -2⟩ } } : World ℚ)
    (1 / 10)
    [Event.idle 100, Event.keyboard 'i' 150, Event.special 101, Event.redisplay,
      Event.idle 200]
    300 (by norm_num) (by simp [Event.isRestart])
  ⟨h.1, h.2.2.1⟩

/-! ### Time deltas -/

/-- C4, as stated, fails: from the launch state (`position.y = 0`) with the
run flag set, the step with `dt = -0.1` moves `position.x` to `-0.1`, raises
`velocity.y` to `2.98` and clears the run flag. -/
theorem negative_dt_changes_state :
    (0 : ℚ) ≤ (initialWorld : World ℚ).projectile.r.y
    ∧ (-(1 / 10) : ℚ) ≤ 0
    ∧ (updateProjectileStateNumerical
        ({ (initialWorld : World ℚ) with
           global := { (initialWorld : World ℚ).global with go := true } } : World ℚ)
        (-(1 / 10))).projectile.r.x = -(1 / 10)
    ∧ (updateProjectileStateNumerical
        ({ (initialWorld : World ℚ) with
           global := { (initialWorld : World ℚ).global with go := true } } : World ℚ)
        (-(1 / 10))).projectile.v.y = 298 / 100
    ∧ (updateProjectileStateNumerical
        ({ (initialWorld : World ℚ) with
           global := { (initialWorld : World ℚ).global with go := true } } : World ℚ)
        (-(1 / 10))).global.go = false := by
  refine ⟨?_, ?_, ?_, ?_, ?_⟩
  · simp [initialWorld]
  · norm_num
  · simp only [updateProjectileStateNumerical, initialWorld]; norm_num
  · simp only [updateProjectileStateNumerical, initialWorld, g]; norm_num
  · simp only [updateProjectileStateNumerical, initialWorld]; norm_num

/-- C4, amended: for every state with `position.y >= 0` the numerical step with
`dt = 0` leaves every program variable, hence position, velocity and the run
state, unchanged. -/
theorem zero_dt_noop (w : World α) (hy : 0 ≤ w.projectile.r.y) :
    updateProjectileStateNumerical w 0 = w := by
  simp [updateProjectileStateNumerical, not_lt.mpr hy]

/-- C4, amended, at the launch state. -/
theorem zero_dt_noop_witness :
    updateProjectileStateNumerical (initialWorld : World ℚ) 0 = initialWorld :=
  zero_dt_noop initialWorld (by simp [initialWorld])

/-! ### Restart -/

/-- The state in which the first flight ends. -/
lemma run_firstFlight :
    run (initialWorld : World ℚ) firstFlight
      = { projectile := { r0 := ⟨0, 0⟩, v0 := ⟨1, 2⟩, r := ⟨1, 0⟩, v := ⟨1, -(39 / 5)⟩ }
          global :=
            { cartesianFlag := true, debug := true, go := false, startTime := 0,
              integrateMode := integrationMode.numerical, OSD := true, frames := 0,
              frameRate := 0, frameRateInterval := 2 / 10, lastFrameRateT := 1 }
          segments := 8
          lastT := 1 } := by
  have hmode : (integrationMode.numerical = integrationMode.analytical) = False := by simp
  simp +decide [firstFlight, run, keyboardCB, update, initialWorld, elapsedSeconds, milli,
    updateProjectileState, updateProjectileStateNumerical, g]
  norm_num [hmode]

/-- C5, as stated, fails: after a first flight has ended on the ground (`go` is
false) the space key returns a state whose position `(1, 0)` and velocity
`(1, -7.8)` are those of the landing, not the initial `(0, 0)` and `(1, 2)`. -/
theorem restart_keeps_position :
    (run (initialWorld : World ℚ) firstFlight).global.go = false
    ∧ ∃ w1 : World ℚ,
        keyboardCB (run (initialWorld : World ℚ) firstFlight) ' ' 2000 = some w1
        ∧ w1.projectile.r0.x = 0 ∧ w1.projectile.r.x = 1
        ∧ w1.projectile.v0.y = 2 ∧ w1.projectile.v.y = -(39 / 5)
        ∧ w1.projectile.r ≠ w1.projectile.r0 ∧ w1.projectile.v ≠ w1.projectile.v0 := by
  rw [run_firstFlight]
  refine ⟨rfl, _, rfl, rfl, rfl, rfl, rfl, ?_, ?_⟩
  · intro h
    have hx := congrArg vec2f.x h
    norm_num at hx
  · intro h
    have hy := congrArg vec2f.y h
    norm_num at hy

/-- C5, amended: for every state in which the simulation is not running, the
space key returns the state with `go` set to `true` and `startTime` set to the
current clock reading in seconds; every other variable, position and velocity
included, is left as it was. -/
theorem restart_sets_go_and_origin (w : World α) (clock : Int) (hgo : w.global.go = false) :
    keyboardCB w ' ' clock
      = some { w with
          global := { w.global with startTime := (clock : α) / 1000, go := true } } := by
  simp +decide [keyboardCB, hgo, elapsedSeconds, milli]

/-- C5, amended, at the launch state with the clock at 5000 milliseconds. -/
theorem restart_sets_go_and_origin_witness :
    keyboardCB (initialWorld : World ℚ) ' ' 5000
      = some { (initialWorld : World ℚ) with
          global := { (initialWorld : World ℚ).global with
            startTime := ((5000 : Int) : ℚ) / 1000, go := true } } :=
  restart_sets_go_and_origin initialWorld 5000 (by simp [initialWorld])

/-! ### Segment count -/

/-- A doubling that fits the range of `int` is not altered by the wrap. -/
lemma wrap32_of_fits (n : Int) (hlo : -2147483648 ≤ n) (hhi : n ≤ 2147483647) :
    wrap32 n = n := by
  unfold wrap32; omega

omit [LinearOrderedField α] in
/-- The segment counts `4 * 2 ^ k` are preserved by the special keys as long
as no doubling overflows. -/
lemma segments_pow_two (keys : List Int) :
    ∀ w : World α, (∃ k : Nat, w.segments = 4 * 2 ^ k) → doublingFits w keys →
      ∃ k : Nat, (keys.foldl keyboardSpecial w).segments = 4 * 2 ^ k := by
  induction keys with
  | nil => intro w hw _; exact hw
  | cons key keys ih =>
    intro w hw hfit
    obtain ⟨hup, hrest⟩ := hfit
    obtain ⟨k, hk⟩ := hw
    have hpos : (0 : Int) < 2 ^ k := by positivity
    refine ih (keyboardSpecial w key) ?_ hrest
    unfold keyboardSpecial
    split_ifs with h1 h2 h3
    · refine ⟨k + 1, ?_⟩
      have hle := hup h1
      simp only
      rw [wrap32_of_fits _ (by omega) hle, hk, pow_succ]
      ring
    · cases k with
      | zero => simp at hk; omega
      | succ k =>
        refine ⟨k, ?_⟩
        simp only
        rw [hk, pow_succ]
        have hpos1 : (0 : Int) < 2 ^ k := by positivity
        rw [Int.tdiv_eq_ediv (by positivity) (by norm_num)]
        omega
    · exact ⟨k, hk⟩
    · exact ⟨k, hk⟩

/-- C9, as stated, fails: 28 consecutive Up adjustments from the initial value
8 wrap the 32-bit `int` to `-2147483648`, which is below 4. -/
theorem segments_overflow_below_four :
    ((List.replicate 28 GLUT_KEY_UP).foldl keyboardSpecial (initialWorld : World ℚ)).segments
        = -2147483648
    ∧ ((List.replicate 28 GLUT_KEY_UP).foldl keyboardSpecial (initialWorld : World ℚ)).segments
        < 4 := by
  have h : ((List.replicate 28 GLUT_KEY_UP).foldl keyboardSpecial
      (initialWorld : World ℚ)).segments = -2147483648 := by
    simp [List.replicate, keyboardSpecial, GLUT_KEY_UP, initialWorld, wrap32]
  rw [h]
  exact ⟨rfl, by norm_num⟩

/-- C9, amended: the Up adjustment maps `segments` to `2*segments` whenever the
double fits the 32-bit `int` (8 becomes exactly 16), the Down adjustment halves
`segments` when `segments > 4` and changes nothing at 4, and for every finite
sequence of special keys starting from the initial value 8 in which no
doubling overflows the `int`, the segment count stays `>= 4`. -/
theorem segments_floor_without_overflow (keys : List Int)
    (hfit : doublingFits (initialWorld : World α) keys) :
    (keyboardSpecial (initialWorld : World α) GLUT_KEY_UP).segments = 16
    ∧ (∀ w : World α, -2147483648 ≤ 2 * w.segments → 2 * w.segments ≤ 2147483647 →
        (keyboardSpecial w GLUT_KEY_UP).segments = 2 * w.segments)
    ∧ (∀ w : World α, w.segments > 4 →
        (keyboardSpecial w GLUT_KEY_DOWN).segments = w.segments / 2)
    ∧ (∀ w : World α, w.segments = 4 → keyboardSpecial w GLUT_KEY_DOWN = w)
    ∧ 4 ≤ (keys.foldl keyboardSpecial (initialWorld : World α)).segments := by
  refine ⟨?_, ?_, ?_, ?_, ?_⟩
  · simp [keyboardSpecial, GLUT_KEY_UP, initialWorld, wrap32]
  · intro w hlo hhi
    simp [keyboardSpecial, GLUT_KEY_UP, wrap32_of_fits _ hlo hhi]
  · intro w hw
    have h : GLUT_KEY_DOWN ≠ GLUT_KEY_UP := by decide
    simp only [keyboardSpecial, h, if_false, if_true, hw]
    exact Int.tdiv_eq_ediv (by omega) (by norm_num)
  · intro w hw
    have h : GLUT_KEY_DOWN ≠ GLUT_KEY_UP := by decide
    simp [keyboardSpecial, h, hw]
  · obtain ⟨k, hk⟩ := segments_pow_two keys (initialWorld : World α) ⟨1, rfl⟩ hfit
    rw [hk]
    have : (1 : Int) ≤ 2 ^ k := by
      have := pow_pos (show (0 : Int) < 2 by norm_num) k
      omega
    omega

/-- C9, amended, at the key sequence Up, Down, Down, Down. -/
theorem segments_floor_without_overflow_witness :
    4 ≤ ([GLUT_KEY_UP, GLUT_KEY_DOWN, GLUT_KEY_DOWN, GLUT_KEY_DOWN].foldl keyboardSpecial
          (initialWorld : World ℚ)).segments :=
  (segments_floor_without_overflow [GLUT_KEY_UP, GLUT_KEY_DOWN, GLUT_KEY_DOWN, GLUT_KEY_DOWN]
    (by simp [doublingFits, keyboardSpecial, GLUT_KEY_UP, GLUT_KEY_DOWN, initialWorld,
          wrap32])).2.2.2.2

/-! ### Accumulated Euler error -/

/-- The state after `k` unclamped numerical steps, in closed form. -/
lemma numericalSteps_closed (w : World α) (dt : α) (n : Nat)
    (hno : ∀ k, k < n →
      ¬ ((numericalSteps w dt k).projectile.r.y
          + (numericalSteps w dt k).projectile.v.y * dt < 0)) :
    ∀ k, k ≤ n →
      (numericalSteps w dt k).projectile.v.x = w.projectile.v.x
      ∧ (numericalSteps w dt k).projectile.v.y = w.projectile.v.y + g * k * dt
      ∧ (numericalSteps w dt k).projectile.r.x = w.projectile.r.x + w.projectile.v.x * (k * dt)
      ∧ (numericalSteps w dt k).projectile.r.y
          = w.projectile.r.y + w.projectile.v.y * k * dt + g * dt ^ 2 * k * (k - 1) / 2 := by
  intro k
  induction k with
  | zero => intro _; simp [numericalSteps]
  | succ k ih =>
    intro hk
    obtain ⟨hvx, hvy, hrx, hry⟩ := ih (Nat.le_of_succ_le hk)
    have hground := hno k hk
    simp only [numericalSteps, updateProjectileStateNumerical, if_neg hground]
    rw [hvx, hvy, hrx, hry]
    push_cast
    refine ⟨rfl, ?_, ?_, ?_⟩ <;> ring

/-- C10: accumulated Euler error in closed form.  Starting from
`position = initialPosition` and `velocity = initialVelocity`, for every
`dt > 0` and every `n` such that none of the first `n` numerical steps triggers
the ground clamp, after `n` steps `velocity.y = initialVelocity.y + g*n*dt`,
`position.x` is the analytical `position.x` at `t = n*dt`, and
`position.y = initialPosition.y + initialVelocity.y*n*dt + g*dt^2*n*(n-1)/2`,
which exceeds the analytical `position.y` at `t = n*dt` by exactly
`-0.5*g*dt*t`, a non-negative amount. -/
theorem euler_accumulated_error (w : World α) (dt : α) (n : Nat)
    (hr : w.projectile.r = w.projectile.r0) (hv : w.projectile.v = w.projectile.v0)
    (hdt : 0 < dt)
    (hno : ∀ k, k < n →
      ¬ ((numericalSteps w dt k).projectile.r.y
          + (numericalSteps w dt k).projectile.v.y * dt < 0)) :
    (numericalSteps w dt n).projectile.v.y = w.projectile.v0.y + g * n * dt
    ∧ (numericalSteps w dt n).projectile.r.x
        = (updateProjectileStateAnalytical w (n * dt)).projectile.r.x
    ∧ (numericalSteps w dt n).projectile.r.y
        = w.projectile.r0.y + w.projectile.v0.y * n * dt + g * dt ^ 2 * n * (n - 1) / 2
    ∧ (numericalSteps w dt n).projectile.r.y
          - (updateProjectileStateAnalytical w (n * dt)).projectile.r.y
        = -(1 / 2) * g * dt * (n * dt)
    ∧ 0 ≤ -(1 / 2) * g * dt * (n * dt) := by
  obtain ⟨_, hvy, hrx, hry⟩ := numericalSteps_closed w dt n hno n le_rfl
  rw [hr] at hrx hry
  rw [hv] at hvy hrx hry
  have hn : (0 : α) ≤ n := Nat.cast_nonneg n
  refine ⟨hvy, ?_, hry, ?_, ?_⟩
  · rw [hrx]; simp only [updateProjectileStateAnalytical]; ring
  · rw [hry]; simp only [updateProjectileStateAnalytical]; ring
  · have hg : (g : α) = -(98 / 10) := rfl
    rw [hg]
    have : 0 ≤ dt * (n * dt) := by positivity
    nlinarith

/-- C10 at the launch state with `dt = 0.1` and `n = 2`: neither step reaches
the ground, and the numerical height `0.302` exceeds the analytical height
`0.204` at `t = 0.2` by `0.098`. -/
theorem euler_accumulated_error_witness :
    (numericalSteps (initialWorld : World ℚ) (1 / 10) 2).projectile.r.y
        - (updateProjectileStateAnalytical (initialWorld : World ℚ)
            (((2 : Nat) : ℚ) * (1 / 10))).projectile.r.y
      = -(1 / 2) * g * (1 / 10) * (((2 : Nat) : ℚ) * (1 / 10)) :=
  (euler_accumulated_error (initialWorld : World ℚ) (1 / 10) 2 rfl rfl (by norm_num)
    (by
      intro k hk
      interval_cases k
      · simp only [numericalSteps, initialWorld]; norm_num
      · simp only [numericalSteps, updateProjectileStateNumerical, initialWorld, g]
        norm_num)).2.2.2.1

/-! ### Marker circle, parametric strategy -/

/-- C6: for every centre `(x, y)` and every `segments >= 1`,
`drawParametricCircle` emits exactly `segments + 1` vertices, vertex `i` being
`(x + r*cos(2*pi*i/segments), y + r*sin(2*pi*i/segments))` with `r = 0.1`; the
first and the last vertex are both `(x + r, y)`, and every vertex is at distance
exactly `r` from the centre, over the reals. -/
theorem parametric_circle_closed (x y : ℝ) (segments : Int) (hseg : 1 ≤ segments) :
    ((drawParametricCircle Real.cos Real.sin Real.pi x y segments).length : Int) = segments + 1
    ∧ (∀ i : Nat, (i : Int) ≤ segments →
        (drawParametricCircle Real.cos Real.sin Real.pi x y segments)[i]?
          = some ⟨x + 1 / 10 * Real.cos (2 * Real.pi * i / segments),
                  y + 1 / 10 * Real.sin (2 * Real.pi * i / segments), 0⟩)
    ∧ (drawParametricCircle Real.cos Real.sin Real.pi x y segments).head?
        = some ⟨x + 1 / 10, y, 0⟩
    ∧ (drawParametricCircle Real.cos Real.sin Real.pi x y segments).getLast?
        = some ⟨x + 1 / 10, y, 0⟩
    ∧ ∀ v ∈ drawParametricCircle Real.cos Real.sin Real.pi x y segments,
        Real.sqrt ((v.x - x) ^ 2 + (v.y - y) ^ 2) = 1 / 10 := by
  obtain ⟨n, rfl⟩ : ∃ n : Nat, segments = (n : Int) := ⟨segments.toNat, by omega⟩
  have hn : 1 ≤ n := by exact_mod_cast hseg
  have hn0 : (n : ℝ) ≠ 0 := by
    have : (0 : ℝ) < n := by exact_mod_cast hn
    exact ne_of_gt this
  have hcount : ((n : Int) + 1).toNat = n + 1 := by omega
  have hget : ∀ i : Nat, i ≤ n →
      (drawParametricCircle Real.cos Real.sin Real.pi x y (n : Int))[i]?
        = some ⟨x + 1 / 10 * Real.cos (2 * Real.pi * i / n),
                y + 1 / 10 * Real.sin (2 * Real.pi * i / n), 0⟩ := by
    intro i hi
    have hlt : i < n + 1 := Nat.lt_succ_of_le hi
    have harg : (i : ℝ) / (n : ℝ) * 2 * Real.pi = 2 * Real.pi * i / n := by ring
    simp only [drawParametricCircle, hcount, List.getElem?_map, List.getElem?_range hlt,
      Option.map_some', Int.cast_natCast, harg]
  have hlen : (drawParametricCircle Real.cos Real.sin Real.pi x y (n : Int)).length = n + 1 := by
    simp [drawParametricCircle, hcount]
  refine ⟨?_, ?_, ?_, ?_, ?_⟩
  · rw [hlen]; push_cast; ring
  · intro i hi
    have := hget i (by exact_mod_cast hi)
    simpa using this
  · rw [List.head?_eq_getElem?, hget 0 (Nat.zero_le n)]
    simp
  · rw [List.getLast?_eq_getElem?, hlen, Nat.add_sub_cancel, hget n le_rfl]
    have h2pi : 2 * Real.pi * (n : ℝ) / (n : ℝ) = 2 * Real.pi := by field_simp
    rw [h2pi, Real.cos_two_pi, Real.sin_two_pi]
    simp
  · intro v hv
    simp only [drawParametricCircle, List.mem_map, List.mem_range] at hv
    obtain ⟨i, _, rfl⟩ := hv
    simp only [add_sub_cancel_left]
    have hsq : ∀ θ : ℝ, (1 / 10 * Real.cos θ) ^ 2 + (1 / 10 * Real.sin θ) ^ 2 = (1 / 10) ^ 2 := by
      intro θ
      have := Real.cos_sq_add_sin_sq θ
      nlinarith
    rw [hsq, Real.sqrt_sq (by norm_num)]

/-- C6 at `segments = 8`: nine vertices. -/
theorem parametric_circle_closed_witness :
    ((drawParametricCircle Real.cos Real.sin Real.pi 0 0 8).length : Int) = 8 + 1 :=
  (parametric_circle_closed 0 0 8 (by norm_num)).1

/-! ### Marker circle, Cartesian strategy -/

/-- The nine vertices `drawCartesianCircle` emits for `segments = 8`: the
heights sweep from `r` down to `-r` and back whatever the centre height `b`. -/
lemma drawCartesianCircle_eight (sqrt : α → α) (a b : α) :
    drawCartesianCircle sqrt a b 8
      = [⟨a + sqrt ((1 / 10) ^ 2 - (1 / 10 - b) ^ 2), 1 / 10, 0⟩,
         ⟨a + sqrt ((1 / 10) ^ 2 - (1 / 20 - b) ^ 2), 1 / 20, 0⟩,
         ⟨a + sqrt ((1 / 10) ^ 2 - (0 - b) ^ 2), 0, 0⟩,
         ⟨a + sqrt ((1 / 10) ^ 2 - (-(1 / 20) - b) ^ 2), -(1 / 20), 0⟩,
         ⟨a - sqrt ((1 / 10) ^ 2 - (-(1 / 10) - b) ^ 2), -(1 / 10), 0⟩,
         ⟨a - sqrt ((1 / 10) ^ 2 - (-(1 / 20) - b) ^ 2), -(1 / 20), 0⟩,
         ⟨a - sqrt ((1 / 10) ^ 2 - (0 - b) ^ 2), 0, 0⟩,
         ⟨a - sqrt ((1 / 10) ^ 2 - (1 / 20 - b) ^ 2), 1 / 20, 0⟩,
         ⟨a - sqrt ((1 / 10) ^ 2 - (1 / 10 - b) ^ 2), 1 / 10, 0⟩] := by
  have hrange : List.range ((8 : Int) + 1).toNat = [0, 1, 2, 3, 4, 5, 6, 7, 8] := by decide
  have hhalf : Int.tdiv 8 2 = 4 := by decide
  have h1 : (1 / 10 : α) - 1 / 10 / (8 / 4) = 1 / 20 := by norm_num
  have h2 : (1 / 20 : α) - 1 / 10 / (8 / 4) = 0 := by norm_num
  have h3 : (0 : α) - 1 / 10 / (8 / 4) = -(1 / 20) := by norm_num
  have h4 : (-(1 / 20) : α) - 1 / 10 / (8 / 4) = -(1 / 10) := by norm_num
  have h5 : (-(1 / 10) : α) + 1 / 10 / (8 / 4) = -(1 / 20) := by norm_num
  have h6 : (-(1 / 20) : α) + 1 / 10 / (8 / 4) = 0 := by norm_num
  have h7 : (0 : α) + 1 / 10 / (8 / 4) = 1 / 20 := by norm_num
  have h8 : (1 / 20 : α) + 1 / 10 / (8 / 4) = 1 / 10 := by norm_num
  simp +decide only [drawCartesianCircle, hrange, List.foldl, cartesianCircleBody, hhalf, wrap32,
    Int.cast_ofNat, Nat.cast_ofNat, Nat.cast_zero, Nat.cast_one, List.nil_append,
    List.cons_append, if_true, if_false, h1, h2, h3, h4, h5, h6, h7, h8]

/-- On the ground (`b = 0`) and for `segments = 8` the Cartesian circle is the
closed polygon of C7: nine vertices, the first equal to the last, every
square root taken of a non-negative number and every vertex on the circle of
radius `0.1` about `(a, 0)`. -/
theorem cartesian_circle_on_ground (a : ℝ) :
    (drawCartesianCircle Real.sqrt a 0 8).length = 9
    ∧ (drawCartesianCircle Real.sqrt a 0 8).head?
        = (drawCartesianCircle Real.sqrt a 0 8).getLast?
    ∧ ∀ v ∈ drawCartesianCircle Real.sqrt a 0 8,
        0 ≤ circleRadicand 0 v.y ∧ (v.x - a) ^ 2 + (v.y - 0) ^ 2 = (1 / 10) ^ 2 := by
  rw [drawCartesianCircle_eight]
  have hs : ∀ t : ℝ, 0 ≤ t → Real.sqrt t ^ 2 = t := fun t ht => Real.sq_sqrt ht
  refine ⟨rfl, ?_, ?_⟩
  · have h0 : ((1 / 10 : ℝ)) ^ 2 - (1 / 10 - 0) ^ 2 = 0 := by norm_num
    simp [h0]
  · intro v hv
    simp only [List.mem_cons, List.mem_singleton, List.not_mem_nil, or_false] at hv
    rcases hv with rfl | rfl | rfl | rfl | rfl | rfl | rfl | rfl | rfl <;>
      refine ⟨by simp only [circleRadicand]; norm_num, ?_⟩ <;>
      simp only [add_sub_cancel_left, sub_sub_cancel_left, neg_sq] <;>
      rw [hs _ (by norm_num)] <;> ring

/-- C7 fails on the code at the position reached by one numerical step of
`dt = 0.1` from the launch state, `(a, b) = (0.1, 0.2)`, with `segments = 8`:
the sweep of `y` starts at `r`, not at `b + r`, so the second vertex is emitted
at height `0.05`, where the argument of the square root is negative and no
`x` at all puts the vertex on the circle of radius `0.1` about `(0.1, 0.2)`. -/
theorem cartesian_circle_off_centre :
    (updateProjectileStateNumerical (initialWorld : World ℝ) (1 / 10)).projectile.r.x = 1 / 10
    ∧ (updateProjectileStateNumerical (initialWorld : World ℝ) (1 / 10)).projectile.r.y = 2 / 10
    ∧ ∃ v ∈ drawCircle Real.sqrt Real.cos Real.sin Real.pi
          (updateProjectileStateNumerical (initialWorld : World ℝ) (1 / 10)) true,
        v.y = 1 / 20 ∧ circleRadicand (2 / 10) v.y < 0
        ∧ ∀ x : ℝ, (x - 1 / 10) ^ 2 + (v.y - 2 / 10) ^ 2 ≠ (1 / 10) ^ 2 := by
  have hx : (updateProjectileStateNumerical (initialWorld : World ℝ) (1 / 10)).projectile.r.x
      = 1 / 10 := by
    simp only [updateProjectileStateNumerical, initialWorld]; norm_num
  have hy : (updateProjectileStateNumerical (initialWorld : World ℝ) (1 / 10)).projectile.r.y
      = 2 / 10 := by
    simp only [updateProjectileStateNumerical, initialWorld]; norm_num
  have hseg : (updateProjectileStateNumerical (initialWorld : World ℝ) (1 / 10)).segments
      = 8 := rfl
  refine ⟨hx, hy, ?_⟩
  simp only [drawCircle, if_true, hx, hy, hseg]
  rw [drawCartesianCircle_eight]
  refine ⟨⟨1 / 10 + Real.sqrt ((1 / 10) ^ 2 - (1 / 20 - 2 / 10) ^ 2), 1 / 20, 0⟩, ?_, rfl, ?_, ?_⟩
  · simp
  · simp only [circleRadicand]; norm_num
  · intro x h
    have hsq : 0 ≤ (x - 1 / 10) ^ 2 := sq_nonneg _
    norm_num at h
    nlinarith

/-! ### Trajectory, Cartesian strategy -/

/-- The loop of `drawCartesianParabola` runs its body for exactly the indices
`i` with `i < projectile.v.y + 1`. -/
lemma parabola_loop_index [FloorRing α] (w : World α) (i : Nat) :
    i < ⌈w.projectile.v.y + 1⌉₊ ↔ (i : α) < w.projectile.v.y + 1 :=
  Nat.lt_ceil

/-- C8, as stated, fails: with `velocity = (1, 0)` and `angle = 0` the loop
body runs once, the denominator `2*velocity.y^2*cos(angle)^2` it divides by is
zero, and the vertex emitted has a non-finite `y`. -/
theorem parabola_divides_by_zero :
    parabolaDivisor Real.cos 0
        ({ (initialWorld : World ℝ) with
           projectile := { r0 := ⟨0, 0⟩, v0 := ⟨1, 2⟩, r := ⟨0, 0⟩, v := ⟨1, 0⟩ } } : World ℝ) = 0
    ∧ drawCartesianParabola Real.sin Real.cos Real.tan 0
        ({ (initialWorld : World ℝ) with
           projectile := { r0 := ⟨0, 0⟩, v0 := ⟨1, 2⟩, r := ⟨0, 0⟩, v := ⟨1, 0⟩ } } : World ℝ)
      = [⟨0, none⟩] := by
  constructor
  · simp [parabolaDivisor]
  · simp [drawCartesianParabola, cartesianParabolaBody, floatDiv, parabolaDivisor]

/-- C8, amended: `drawCartesianParabola` has no guard.  For every state with
`velocity.y = 0` and every value of `angle` the loop body runs exactly once,
the denominator `2*velocity.y^2*cos(angle)^2` of its division is zero, and the
single vertex emitted has `x = 0` and a non-finite `y`. -/
theorem parabola_zero_speed_unguarded [FloorRing α] (sin cos tan : α → α) (angle : α)
    (w : World α) (hvy : w.projectile.v.y = 0) :
    parabolaDivisor cos angle w = 0
    ∧ floatDiv (g : α) (parabolaDivisor cos angle w) = none
    ∧ drawCartesianParabola sin cos tan angle w = [⟨0, none⟩] := by
  have hd : parabolaDivisor cos angle w = 0 := by simp [parabolaDivisor, hvy]
  refine ⟨hd, by simp [floatDiv, hd], ?_⟩
  simp [drawCartesianParabola, cartesianParabolaBody, floatDiv, hd, hvy]

/-- C8, amended, at `velocity = (1, 0)` and `angle = 1/2` over the reals. -/
theorem parabola_zero_speed_unguarded_witness :
    drawCartesianParabola Real.sin Real.cos Real.tan (1 / 2)
        ({ (initialWorld : World ℝ) with
           projectile := { r0 := ⟨0, 0⟩, v0 := ⟨1, 2⟩, r := ⟨0, 0⟩, v := ⟨1, 0⟩ } } : World ℝ)
      = [⟨0, none⟩] :=
  (parabola_zero_speed_unguarded Real.sin Real.cos Real.tan (1 / 2)
    ({ (initialWorld : World ℝ) with
       projectile := { r0 := ⟨0, 0⟩, v0 := ⟨1, 2⟩, r := ⟨0, 0⟩, v := ⟨1, 0⟩ } } : World ℝ)
    rfl).2.2

end Theorems

end Projectile
